import Mathlib

/-!
Shallow embedding of the RustyCOV cover-art pipeline.

The definitions below are translated from the Rust sources:
`src/lib/src/helpers.rs` (extract_first_number), `src/lib/src/structs.rs`
(FileFormat, RustyCov::populate_from_input), `src/lib/src/lib.rs`
(run, run_covit, parse_covit_output, run_covit_query, parse_file_name),
`src/lib/src/lofty.rs` (embed_cover_image, process_cover_image,
remove_embedded_art_from_file) and `src/lib/src/image.rs`
(convert_png_to_jpeg, optimise_jpeg, optimise_png).

External collaborators (the covit resolver subprocess, serde_json's string
level JSON parser, the image/oxipng codecs, the lofty container reader and
the network) are modelled as explicit parameters; everything the repository
itself computes is translated function by function.
-/

/-- Rust `Ord::cmp` on unsigned integers, as used by `usize::cmp` in the
file comparator. -/
def nCmp (a b : Nat) : Ordering :=
  if a < b then .lt else if b < a then .gt else .eq

/-- Rust `str::cmp`: byte-lexicographic comparison. For UTF-8 data the byte
order coincides with code-point order, so we compare scalar values. -/
def lexCmp : List Char → List Char → Ordering
  | [], [] => .eq
  | [], _ :: _ => .lt
  | _ :: _, [] => .gt
  | a :: as, b :: bs =>
    match nCmp a.toNat b.toNat with
    | .eq => lexCmp as bs
    | o => o

/-- Index of the last `'.'` in a character list (used to model Rust's
`Path::file_stem` / `Path::extension` on a plain file name). -/
def lastDotIdx (cs : List Char) : Option Nat :=
  (List.range cs.length).foldl (fun acc i => if cs.getD i ' ' = '.' then some i else acc) none

/-- Rust `Path::file_stem` restricted to a file name: the portion before the
final `'.'`; a name whose only `'.'` is at position 0 (a hidden file) has no
extension and is its own stem. -/
def rustFileStem (name : String) : String :=
  match lastDotIdx name.data with
  | none => name
  | some 0 => name
  | some i => String.mk (name.data.take i)

/-- Rust `Path::extension` restricted to a file name. -/
def rustExtension (name : String) : Option String :=
  match lastDotIdx name.data with
  | none => none
  | some 0 => none
  | some i => some (String.mk (name.data.drop (i + 1)))

/-- Rust `char::to_ascii_lowercase`, mapped over a string. -/
def lowerAscii (s : String) : String :=
  String.mk (s.data.map Char.toLower)

/-- `usize::MAX` on the 64-bit targets the program is built for;
`str::parse::<usize>` fails (returns `Err`) beyond this bound. -/
def usizeMax : Nat := 2 ^ 64 - 1

/-- Value of a list of ASCII digits, as `str::parse` computes it. -/
def digitsToNat (cs : List Char) : Nat :=
  cs.foldl (fun a c => a * 10 + (c.toNat - 48)) 0

/-- Scanning loop of `helpers::extract_first_number`: find the first ASCII
digit, take the maximal digit run starting there, and parse it; a run whose
value overflows `usize` makes the whole function return `None`. -/
def extractFirstNumAux : List Char → Option (Nat × Nat)
  | [] => none
  | c :: rest =>
    if c.isDigit then
      let run := c :: rest.takeWhile Char.isDigit
      if digitsToNat run ≤ usizeMax then some (digitsToNat run, run.length) else none
    else extractFirstNumAux rest

/-- `helpers::extract_first_number`: first contiguous digit substring of `s`
with its numeric value and digit length. Rust scans bytes, but the bytes of
a multi-byte UTF-8 character are never ASCII digits, so the character-level
scan is equivalent. -/
def extract_first_number (s : String) : Option (Nat × Nat) :=
  extractFirstNumAux s.data

/-- `structs::FileFormat`: supported audio/video file extensions. -/
inductive FileFormat where
  | mp3 | m4a | flac | aac | opus | ogg | wma | wav | aiff | alac | ape | flv | webm
  | unknown
deriving DecidableEq, Repr

/-- `FileFormat::from_path`, reading the extension of the file name
(case-insensitive). -/
def FileFormat.from_name (name : String) : FileFormat :=
  match (rustExtension name).map lowerAscii with
  | some "mp3" => .mp3
  | some "m4a" => .m4a
  | some "flac" => .flac
  | some "aac" => .aac
  | some "opus" => .opus
  | some "ogg" => .ogg
  | some "wma" => .wma
  | some "wav" => .wav
  | some "aiff" => .aiff
  | some "alac" => .alac
  | some "ape" => .ape
  | some "flv" => .flv
  | some "webm" => .webm
  | _ => .unknown

/-- The inline comparator of `RustyCov::populate_from_input` (structs.rs
lines 104-127), applied to two file names sharing a directory: compare the
first digit runs of the extension-stripped stems numerically, break numeric
ties by the longer digit run first, put names with a number before names
without, and otherwise fall back to lexicographic order on the stems. -/
def numKeyCmp (p q : Nat × Nat) : Ordering :=
  match nCmp p.1 q.1 with
  | .eq => nCmp q.2 p.2
  | o => o

/-- The comparator of structs.rs lines 104-127 as a two-name function:
`numKeyCmp` is its `(Some, Some)` arm (numeric value first, then the longer
digit run first on a tie). -/
def fileCmp (a b : String) : Ordering :=
  let aName := rustFileStem a
  let bName := rustFileStem b
  match extract_first_number aName, extract_first_number bName with
  | some pa, some pb => numKeyCmp pa pb
  | some _, none => .lt
  | none, some _ => .gt
  | none, none => lexCmp aName.data bName.data

/-- One step of a stable insertion sort: `x` moves past exactly the elements
it compares `gt` against, so elements comparing equal keep their original
relative order, as Rust's stable `sort_by` does. -/
def insertBy (cmp : α → α → Ordering) (x : α) : List α → List α
  | [] => [x]
  | y :: ys =>
    match cmp x y with
    | .gt => y :: insertBy cmp x ys
    | _ => x :: y :: ys

/-- Stable sort by a comparator (model of `Vec::sort_by`). -/
def sortByCmp (cmp : α → α → Ordering) (l : List α) : List α :=
  l.foldr (insertBy cmp) []

/-- A discovered filesystem entry: parent directory and file name. The
directory walk itself is external; `populate_from_input` receives the
traversal as a list. -/
structure MediaPath where
  parent : String
  name : String
deriving DecidableEq, Repr

/-- `add_file_to_map` accumulated over an association list: group file names
by parent directory, keeping only known formats, preserving traversal order
inside a group (Vec push order). -/
def insertGroup (m : List (String × List String)) (dir fname : String) :
    List (String × List String) :=
  match m with
  | [] => [(dir, [fname])]
  | (d, fs) :: rest =>
    if d = dir then (d, fs ++ [fname]) :: rest else (d, fs) :: insertGroup rest dir fname

/-- `RustyCov::populate_from_input` on an abstract directory traversal:
classify each entry, drop unknown formats, group by parent directory, then
sort every group with the numeric-aware comparator. -/
def populate_from_input (entries : List MediaPath) : List (String × List String) :=
  (entries.foldl
      (fun m e =>
        if FileFormat.from_name e.name ≠ FileFormat.unknown then insertGroup m e.parent e.name
        else m)
      []).map
    (fun g => (g.1, sortByCmp fileCmp g.2))

/-- Drop a leading tag from a character list (Rust `str::strip_prefix`):
`some rest` when `tag ++ rest = l`, else `none`. -/
def dropLead? : List Char → List Char → Option (List Char)
  | [], l => some l
  | _ :: _, [] => none
  | p :: ps, c :: cs => if p = c then dropLead? ps cs else none

/-- Rust `str::starts_with`. -/
def hasLead (tag l : List Char) : Bool :=
  (dropLead? tag l).isSome

/-- Rust `str::trim().is_empty()`: every character is whitespace. -/
def isBlank (cs : List Char) : Bool :=
  cs.all Char.isWhitespace

/-- Rust `str::trim` (drop whitespace from both ends). -/
def trimChars (cs : List Char) : List Char :=
  ((cs.dropWhile Char.isWhitespace).reverse.dropWhile Char.isWhitespace).reverse

/-- Split a character list at every newline; the piece after the final
newline is kept (possibly empty). -/
def splitNl : List Char → List (List Char)
  | [] => [[]]
  | c :: rest =>
    if c = '\n' then [] :: splitNl rest
    else
      match splitNl rest with
      | [] => [[c]]
      | l :: ls => (c :: l) :: ls

/-- Rust `str::lines`: split at `'\n'`, with an optional final line ending,
and strip a trailing `'\r'` from each line. -/
def rustLines (s : String) : List (List Char) :=
  match s.data with
  | [] => []
  | cs =>
    let parts := splitNl cs
    let parts := if cs.getLast? = some '\n' then parts.dropLast else parts
    parts.map (fun l => if l.getLast? = some '\r' then l.dropLast else l)

/-- JSON values as far as `parse_covit_output` consumes them through
serde_json (`Value::get`, `Value::as_str`, `Value::as_u64`). -/
inductive Json where
  | null
  | bool (b : Bool)
  | num (n : Int)
  | str (s : String)
  | arr (elems : List Json)
  | obj (fields : List (String × Json))

/-- `serde_json::Value::get` on an object key. -/
def Json.get? : Json → String → Option Json
  | .obj fields, k => (fields.find? (fun p => p.1 = k)).map (·.2)
  | _, _ => none

/-- `serde_json::Value::as_str`. -/
def Json.asStr : Json → Option String
  | .str s => some s
  | _ => none

/-- `serde_json::Value::as_u64`: integers representable in a `u64`. -/
def Json.asU64 : Json → Option Nat
  | .num n => if 0 ≤ n ∧ n < (2 : Int) ^ 64 then some n.toNat else none
  | _ => none

/-- `structs::ReleaseInfo` (`tracks` is a `u32`). -/
structure ReleaseInfo where
  title : String
  artist : String
  date : String
  tracks : Option Nat
deriving DecidableEq, Repr

/-- `structs::CoverInfo` (`height`/`width` are `u32`, `size` a `u64`). -/
structure CoverInfo where
  format : String
  height : Nat
  width : Nat
  size : Nat
deriving DecidableEq, Repr

/-- `structs::Picked`: the resolver result record. -/
structure Picked where
  big_cover_url : String
  release_info : ReleaseInfo
  cover_info : CoverInfo
deriving DecidableEq, Repr

/-- Field extraction of `parse_covit_output` (lib.rs lines 278-324): every
field is optional; absent strings default to placeholder text, absent
numbers to 0; `as u32` casts truncate modulo `2^32`. -/
def extractPicked (v : Json) : Picked where
  big_cover_url := ((v.get? "bigCoverUrl").bind Json.asStr).getD ""
  release_info :=
    { title := ((v.get? "releaseInfo").bind (fun r => (r.get? "title").bind Json.asStr)).getD
          "Unknown Title"
      artist := ((v.get? "releaseInfo").bind (fun r => (r.get? "artist").bind Json.asStr)).getD
          "Unknown Artist"
      date := ((v.get? "releaseInfo").bind (fun r => (r.get? "date").bind Json.asStr)).getD
          "Unknown Date"
      tracks := ((v.get? "releaseInfo").bind (fun r => (r.get? "tracks").bind Json.asU64)).map
          (· % 2 ^ 32) }
  cover_info :=
    { format := ((v.get? "coverInfo").bind (fun c => (c.get? "format").bind Json.asStr)).getD
          "Unknown Format"
      height := (((v.get? "coverInfo").bind (fun c => (c.get? "height").bind Json.asU64)).getD
          0) % 2 ^ 32
      width := (((v.get? "coverInfo").bind (fun c => (c.get? "width").bind Json.asU64)).getD
          0) % 2 ^ 32
      size := ((v.get? "coverInfo").bind (fun c => (c.get? "size").bind Json.asU64)).getD 0 }

/-- `parse_covit_output`: scan stdout lines for the first `Picked: ` line
whose JSON payload parses; a line with the tag but unparseable JSON is
skipped and scanning continues. The string-level JSON parser (serde_json)
is external and passed in as `pj`. -/
def parse_covit_output (pj : String → Option Json) (stdout : String) : Option Picked :=
  (rustLines stdout).findSome? fun l =>
    match dropLead? "Picked: ".data l with
    | some rest => (pj (String.mk rest)).map extractPicked
    | none => none

/-- The fixed, ordered delimiter list of `parse_file_name`. -/
def delimiterList : List String :=
  [" - ", " – ", " — ", " _ ", ":", " | "]

/-- First index of `needle` inside `hay` (Rust `str::find` for a substring
pattern). -/
def findSub (needle : List Char) : List Char → Option Nat
  | [] => if needle = [] then some 0 else none
  | c :: cs =>
    if (dropLead? needle (c :: cs)).isSome then some 0
    else (findSub needle cs).map (· + 1)

/-- Scan the delimiter list in order; the first delimiter that occurs in the
name wins, at its first occurrence. Returns the split index and the
delimiter length in characters. -/
def firstDelim : List String → List Char → Option (Nat × Nat)
  | [], _ => none
  | d :: ds, cs =>
    match findSub d.data cs with
    | some i => some (i, d.data.length)
    | none => firstDelim ds cs

/-- `parse_file_name`: split the file stem at the first delimiter found,
trimming both sides; with no delimiter the whole trimmed stem becomes the
title and there is no artist. -/
def parse_file_name (stem : String) : Option String × Option String :=
  match firstDelim delimiterList stem.data with
  | some (i, d) =>
    (some (String.mk (trimChars (stem.data.take i))),
      some (String.mk (trimChars (stem.data.drop (i + d)))))
  | none => (none, some (String.mk (trimChars stem.data)))

/-- Captured output of one resolver subprocess invocation
(`std::process::Output`, decoded with `from_utf8_lossy`). -/
structure ProcOutput where
  stdout : String
  stderr : String
deriving DecidableEq, Repr

/-- Argument list built by `run_covit_query`: always address, album title,
remote agent, sources and country; the artist argument is inserted only
when an artist was derived and is non-empty. -/
def covitQueryArgs (addr title : String) (artistOpt : Option String)
    (remoteAgent srcs country : String) : List String :=
  ["--address", addr, "--query-album", title]
    ++ (match artistOpt with
        | some a => if a ≠ "" then ["--query-artist", a] else []
        | none => [])
    ++ ["--remote-agent", remoteAgent, "--query-sources", srcs, "--query-country", country]

/-- The cancellation test of `run_covit` (lib.rs line 242): every stdout
line starts with `Listening:` and stderr trims to empty. -/
def listeningCond (out : ProcOutput) : Bool :=
  (rustLines out.stdout).all (fun l => hasLead "Listening:".data l) && isBlank out.stderr.data

/-- `run_covit`. The two subprocess invocations are external: `out1` is the
captured output of the direct invocation (`none` models a launch failure,
which `?` turns into `None`), and `qe` maps the fallback invocation's
argument list to its captured output. `stem` is `input.file_stem()` (`none`
likewise short-circuits to `None`). -/
def run_covit (out1 : Option ProcOutput) (qe : List String → Option ProcOutput)
    (pj : String → Option Json) (addr remoteAgent srcs country : String)
    (stem : Option String) : Option Picked :=
  match out1 with
  | none => none
  | some out =>
    if listeningCond out then none
    else
      match parse_covit_output pj out.stdout with
      | some picked => some picked
      | none =>
        match stem with
        | none => none
        | some st =>
          let pr := parse_file_name st
          match pr.2 with
          | some t =>
            if t ≠ "" then
              match qe (covitQueryArgs addr t pr.1 remoteAgent srcs country) with
              | some out2 => parse_covit_output pj out2.stdout
              | none => none
            else none
          | none => none

/-- Picture MIME types as far as `process_cover_image` branches on them
(lofty's `MimeType`, collapsed to the three relevant cases). -/
inductive MimeT where
  | png
  | jpeg
  | other
deriving DecidableEq, Repr

/-- Picture slots of the tag container (lofty's `PictureType`, collapsed). -/
inductive PicT where
  | coverFront
  | coverBack
  | other
deriving DecidableEq, Repr

/-- Tag kinds (lofty's `TagType`, collapsed to a few representatives). -/
inductive TagT where
  | id3v2
  | id3v1
  | ape
  | mp4Ilst
  | vorbisComments
deriving DecidableEq, Repr

/-- An embedded picture: slot, MIME type and raw bytes. -/
structure Picture where
  picType : PicT
  mime : MimeT
  data : List Nat
deriving DecidableEq, Repr

/-- A tag inside a tagged file. `Tag::new(tag_type)` starts empty. -/
structure Tag where
  tagType : TagT
  pictures : List Picture
deriving DecidableEq, Repr

/-- A tagged media file as lofty exposes it: the format's primary tag type
and the list of tags present. -/
structure TaggedFile where
  primaryType : TagT
  tags : List Tag
deriving DecidableEq, Repr

/-- `WriteOptions` as consumed here: only the read-only override is set. -/
structure WriteOptions where
  respectReadOnly : Bool
deriving DecidableEq, Repr

/-- MIME detection from magic bytes, as lofty's `Picture::from_reader`
performs it. -/
def detectMime (b : List Nat) : MimeT :=
  if b.take 4 = [137, 80, 78, 71] then .png
  else if b.take 2 = [255, 216] then .jpeg
  else .other

/-- `Picture::from_reader` over an in-memory buffer: the picture records the
buffer and its detected MIME type (the picture type is set by the caller). -/
def pictureOf (b : List Nat) : Picture where
  picType := .other
  mime := detectMime b
  data := b

/-- The external image codecs (the `image` crate and oxipng), as the core
consumes them: decode to pixels, encode pixels as JPEG (at the default or a
given quality), and losslessly recompress a PNG. -/
structure Codec (Img : Type) where
  decode : List Nat → Except String Img
  encodeJpegDefault : Img → Except String (List Nat)
  encodeJpegQ : Nat → Img → Except String (List Nat)
  pngOptimize : List Nat → Except String (List Nat)

/-- `image::optimise_jpeg`: decode the buffer and re-encode as JPEG at the
given quality, replacing the buffer. -/
def optimise_jpeg {Img : Type} (codec : Codec Img) (buf : List Nat) (quality : Nat) :
    Except String (List Nat) :=
  match codec.decode buf with
  | .error e => .error e
  | .ok img => codec.encodeJpegQ quality img

/-- `image::convert_png_to_jpeg`: decode the PNG, encode as JPEG at the
default quality, then, when a quality is set, re-encode at that quality via
`optimise_jpeg`; finally re-derive the picture from the final buffer. -/
def convert_png_to_jpeg {Img : Type} (codec : Codec Img) (buf : List Nat)
    (quality? : Option Nat) : Except String (List Nat × Picture) :=
  match codec.decode buf with
  | .error e => .error e
  | .ok img =>
    match codec.encodeJpegDefault img with
    | .error e => .error e
    | .ok jb =>
      match quality? with
      | some q =>
        match optimise_jpeg codec jb q with
        | .error e => .error e
        | .ok jb2 => .ok (jb2, pictureOf jb2)
      | none => .ok (jb, pictureOf jb)

/-- `lofty::process_cover_image` (lofty.rs lines 88-131), with both the
`jpeg-opt` and `png-opt` features compiled in: branch on the detected MIME
type; PNG is converted to JPEG when `convertPngToJpg` is set, else
losslessly recompressed when `pngOpt` is set (oxipng with safe metadata
stripping and alpha optimization, modelled by `codec.pngOptimize`); JPEG is
re-encoded when a quality is set; anything else passes through. Every
transform re-derives the picture from the final buffer; every failure
propagates as an error. -/
def process_cover_image {Img : Type} (codec : Codec Img) (imageBytes : List Nat)
    (convertPngToJpg : Bool) (jpegQuality : Option Nat) (pngOpt : Bool) :
    Except String (List Nat × Picture) :=
  match detectMime imageBytes with
  | .png =>
    match (match convertPngToJpg with
           | true => convert_png_to_jpeg codec imageBytes jpegQuality
           | false => .ok (imageBytes, pictureOf imageBytes)) with
    | .error e => .error e
    | .ok (b1, p1) =>
      if p1.mime = .png ∧ pngOpt then
        match codec.pngOptimize b1 with
        | .error e => .error e
        | .ok b2 => .ok (b2, pictureOf b2)
      else .ok (b1, p1)
  | .jpeg =>
    match jpegQuality with
    | some q =>
      match optimise_jpeg codec imageBytes q with
      | .error e => .error e
      | .ok b2 => .ok (b2, pictureOf b2)
    | none => .ok (imageBytes, pictureOf imageBytes)
  | .other => .ok (imageBytes, pictureOf imageBytes)

/-- Index of the first tag of a given type in a tag list. -/
def idxOfTag (tt : TagT) : List Tag → Option Nat
  | [] => none
  | t :: rest => if t.tagType = tt then some 0 else (idxOfTag tt rest).map (· + 1)

/-- Index of the tag matching the file's primary tag type
(`TaggedFile::primary_tag_mut`). -/
def primaryIdx (f : TaggedFile) : Option Nat :=
  idxOfTag f.primaryType f.tags

/-- The tag-selection decision of `embed_cover_image` (lofty.rs lines
46-57): the primary tag if present, else the first tag, else a freshly
inserted empty tag of the primary type. Returns the (possibly extended)
file and the index of the selected tag. -/
def selectTag (f : TaggedFile) : TaggedFile × Nat :=
  match primaryIdx f with
  | some i => (f, i)
  | none =>
    match f.tags with
    | _ :: _ => (f, 0)
    | [] => ({ f with tags := [{ tagType := f.primaryType, pictures := [] }] }, 0)

/-- Fallback tag used with `List.getD`; never reached at selected indices. -/
def dTag : Tag where
  tagType := .id3v2
  pictures := []

/-- The tag mutation of `embed_cover_image` once the picture is processed:
at tag index `i` of `f`, remove every front-cover picture
(`Tag::remove_picture_type`) and push `pic`; the save uses
`WriteOptions::new().respect_read_only(false)`. -/
def attachCover (f : TaggedFile) (i : Nat) (pic : Picture) : TaggedFile × WriteOptions :=
  ({ f with
      tags := f.tags.set i
        { tagType := (f.tags.getD i dTag).tagType
          pictures :=
            (f.tags.getD i dTag).pictures.filter (fun p => p.picType != PicT.coverFront)
              ++ [pic] } },
    { respectReadOnly := false })

/-- `lofty::embed_cover_image` (lofty.rs lines 32-72): select the target
tag, process the image, mark the processed picture as the front cover,
remove any existing front-cover picture (`Tag::remove_picture_type` retains
everything else), push the new picture, and save with the read-only flag
overridden. -/
def embed_cover_image {Img : Type} (codec : Codec Img) (f : TaggedFile)
    (imageBytes : List Nat) (convertPngToJpg : Bool) (jpegQuality : Option Nat)
    (pngOpt : Bool) : Except String (TaggedFile × WriteOptions) :=
  match process_cover_image codec imageBytes convertPngToJpg jpegQuality pngOpt with
  | .error e => .error e
  | .ok (_, pic) =>
    .ok (attachCover (selectTag f).1 (selectTag f).2 { pic with picType := PicT.coverFront })

/-- The strip loop of `remove_embedded_art_from_file`: while the picture
list is non-empty, remove the picture at index 0. -/
def stripAll : List Picture → List Picture
  | [] => []
  | _ :: rest => stripAll rest

/-- `lofty::remove_embedded_art_from_file` (lofty.rs lines 141-150): if a
primary tag exists, remove all of its pictures and save; otherwise the file
is left untouched (no other tag is visited). -/
def remove_embedded_art_from_file (f : TaggedFile) : TaggedFile :=
  match primaryIdx f with
  | some i =>
    let t := f.tags.getD i dTag
    { f with tags := f.tags.set i { t with pictures := stripAll t.pictures } }
  | none => f

/-- Total number of embedded pictures across all tags of a file. -/
def totalPictures (f : TaggedFile) : Nat :=
  (f.tags.map (fun t => t.pictures.length)).sum

/-- What the orchestrating loop in `run` does with one resolver outcome. -/
inductive JobAction where
  | skip
  | download (url : String)
deriving DecidableEq, Repr

/-- Per-file mode dispatch (lib.rs lines 158-200): any `Some(picked)` spawns
a job that downloads `picked.big_cover_url`; `None` is skipped. -/
def perFileAction (picked : Option Picked) : JobAction :=
  match picked with
  | some p => .download p.big_cover_url
  | none => .skip

/-- One per-file job with the outcomes of its effectful steps: the resolver
result, the download and the embed result of the spawned thread. -/
structure FileJob where
  picked : Option Picked
  downloadResult : Except String (List Nat)
  embedResult : Except String Unit

/-- Outcome of one spawned per-file thread. -/
inductive ThreadOutcome where
  | finished
  | panicked (msg : String)
deriving DecidableEq, Repr

/-- The spawned closure of per-file mode: `download_image(..).expect(..)`
panics the thread on a download error; an embed error is only printed, so
the thread still finishes. -/
def fileThread (j : FileJob) : ThreadOutcome :=
  match j.downloadResult with
  | .error _ => .panicked "Failed to Download Image"
  | .ok _ => .finished

/-- Per-file mode of `run`: spawn one thread per file with a resolver
result, join them all, and count the joins that did not panic. The run
itself always succeeds. -/
def perFileRun (jobs : List FileJob) : Except String Nat :=
  .ok (((jobs.filter (fun j => j.picked.isSome)).map fileThread).count .finished)

/-- One directory group in album-folder mode with the outcomes of its
effectful steps: existing artwork check, resolver outcome, download,
image processing and artwork write. -/
structure FolderJob where
  artExists : Bool
  picked : Option Picked
  downloadResult : Except String (List Nat)
  processResult : Except String (List Nat)
  writeResult : Except String Unit

/-- One iteration of the album-mode folder loop (lib.rs lines 87-151):
existing artwork or a missing resolver result skips the folder; after a
resolver success, `download_image(..)?`, `process_cover_image(..)?` and
`fs::write(..)?` each propagate their error out of `run`. -/
def albumStep (acc : Nat) (f : FolderJob) : Except String Nat :=
  if f.artExists then .ok acc
  else
    match f.picked with
    | none => .ok acc
    | some _ =>
      match f.downloadResult with
      | .error e => .error e
      | .ok _ =>
        match f.processResult with
        | .error e => .error e
        | .ok _ =>
          match f.writeResult with
          | .error e => .error e
          | .ok _ => .ok (acc + 1)

/-- The album-mode folder loop with its running completion count. -/
def albumRunFrom (acc : Nat) : List FolderJob → Except String Nat
  | [] => .ok acc
  | f :: rest =>
    match albumStep acc f with
    | .error e => .error e
    | .ok acc' => albumRunFrom acc' rest

/-- Album-folder mode of `run`: fold the folder loop from zero completions;
the first propagated error aborts the whole run. -/
def albumRun (folders : List FolderJob) : Except String Nat :=
  albumRunFrom 0 folders

theorem nCmp_eq_lt {a b : Nat} : nCmp a b = .lt ↔ a < b := by
  unfold nCmp
  split_ifs with h1 h2 <;> simp_all

theorem nCmp_eq_eq {a b : Nat} : nCmp a b = .eq ↔ a = b := by
  unfold nCmp
  split_ifs with h1 h2 <;> simp_all <;> omega

theorem nCmp_eq_gt {a b : Nat} : nCmp a b = .gt ↔ b < a := by
  unfold nCmp
  split_ifs with h1 h2 <;> simp_all
  omega

theorem nCmp_swap (a b : Nat) : nCmp b a = (nCmp a b).swap := by
  unfold nCmp
  split_ifs with h1 h2 h3 <;> simp_all [Ordering.swap]
  omega

theorem nCmp_refl (a : Nat) : nCmp a a = .eq := nCmp_eq_eq.mpr rfl

theorem lexCmp_refl : ∀ a : List Char, lexCmp a a = .eq
  | [] => rfl
  | c :: cs => by
    have ih := lexCmp_refl cs
    simp [lexCmp, nCmp_refl, ih]

theorem lexCmp_swap : ∀ a b : List Char, lexCmp b a = (lexCmp a b).swap
  | [], [] => rfl
  | [], _ :: _ => rfl
  | _ :: _, [] => rfl
  | a :: as, b :: bs => by
    have ih := lexCmp_swap as bs
    have hsw := nCmp_swap a.toNat b.toNat
    cases h : nCmp a.toNat b.toNat <;>
      simp [lexCmp, hsw, h, ih, Ordering.swap]

theorem lexCmp_trans : ∀ (a b c : List Char),
    lexCmp a b = .lt → lexCmp b c = .lt → lexCmp a c = .lt
  | [], [], _, h1, _ => by simp [lexCmp] at h1
  | [], _ :: _, [], _, h2 => by simp [lexCmp] at h2
  | [], _ :: _, _ :: _, _, _ => rfl
  | _ :: _, [], _, h1, _ => by simp [lexCmp] at h1
  | _ :: _, _ :: _, [], _, h2 => by simp [lexCmp] at h2
  | a :: as, b :: bs, c :: cs, h1, h2 => by
    simp only [lexCmp] at h1 h2 ⊢
    cases hab : nCmp a.toNat b.toNat with
    | lt =>
      cases hbc : nCmp b.toNat c.toNat with
      | lt =>
        have : a.toNat < c.toNat := lt_trans (nCmp_eq_lt.mp hab) (nCmp_eq_lt.mp hbc)
        simp [nCmp_eq_lt.mpr this]
      | eq =>
        have hb := nCmp_eq_eq.mp hbc
        have : a.toNat < c.toNat := hb ▸ nCmp_eq_lt.mp hab
        simp [nCmp_eq_lt.mpr this]
      | gt => simp [hbc] at h2
    | eq =>
      have hab' := nCmp_eq_eq.mp hab
      rw [hab] at h1
      cases hbc : nCmp b.toNat c.toNat with
      | lt =>
        have : a.toNat < c.toNat := hab' ▸ nCmp_eq_lt.mp hbc
        simp [nCmp_eq_lt.mpr this]
      | eq =>
        rw [hbc] at h2
        have : a.toNat = c.toNat := hab'.trans (nCmp_eq_eq.mp hbc)
        simp only [nCmp_eq_eq.mpr this]
        exact lexCmp_trans as bs cs h1 h2
      | gt => simp [hbc] at h2
    | gt => simp [hab] at h1

theorem numKeyCmp_lt_iff {p q : Nat × Nat} :
    numKeyCmp p q = .lt ↔ p.1 < q.1 ∨ (p.1 = q.1 ∧ q.2 < p.2) := by
  unfold numKeyCmp
  cases h : nCmp p.1 q.1 with
  | lt => simp [nCmp_eq_lt.mp h]
  | eq => simp [nCmp_eq_eq.mp h, nCmp_eq_lt]
  | gt =>
    have := nCmp_eq_gt.mp h
    simp only [reduceCtorEq, false_iff]
    omega

theorem numKeyCmp_swap (p q : Nat × Nat) : numKeyCmp q p = (numKeyCmp p q).swap := by
  unfold numKeyCmp
  have h1 := nCmp_swap p.1 q.1
  have h2 := nCmp_swap q.2 p.2
  cases h : nCmp p.1 q.1 <;> simp [h1, h2, h, Ordering.swap]

theorem numKeyCmp_refl (p : Nat × Nat) : numKeyCmp p p = .eq := by
  simp [numKeyCmp, nCmp_refl]

theorem numKeyCmp_trans {p q r : Nat × Nat} (h1 : numKeyCmp p q = .lt)
    (h2 : numKeyCmp q r = .lt) : numKeyCmp p r = .lt := by
  rw [numKeyCmp_lt_iff] at h1 h2 ⊢
  omega

theorem fileCmp_trans (a b c : String) (h1 : fileCmp a b = .lt) (h2 : fileCmp b c = .lt) :
    fileCmp a c = .lt := by
  unfold fileCmp at h1 h2 ⊢
  cases ha : extract_first_number (rustFileStem a) <;>
    cases hb : extract_first_number (rustFileStem b) <;>
      cases hc : extract_first_number (rustFileStem c) <;>
        simp only [ha, hb, hc] at h1 h2 ⊢ <;>
          first
            | rfl
            | exact lexCmp_trans _ _ _ h1 h2
            | exact numKeyCmp_trans h1 h2
            | simp at h1
            | simp at h2

theorem fileCmp_swap (a b : String) : fileCmp b a = (fileCmp a b).swap := by
  unfold fileCmp
  cases ha : extract_first_number (rustFileStem a) <;>
    cases hb : extract_first_number (rustFileStem b) <;>
      simp only [ha, hb]
  · exact lexCmp_swap _ _
  · rfl
  · rfl
  · exact numKeyCmp_swap _ _

theorem fileCmp_refl (a : String) : fileCmp a a = .eq := by
  unfold fileCmp
  cases ha : extract_first_number (rustFileStem a) <;> simp only [ha]
  · exact lexCmp_refl _
  · exact numKeyCmp_refl _

theorem extractAux_le : ∀ (cs : List Char) (v l : Nat),
    extractFirstNumAux cs = some (v, l) → v ≤ usizeMax
  | [], v, l, h => by simp [extractFirstNumAux] at h
  | c :: cs, v, l, h => by
    by_cases hc : c.isDigit
    · simp only [extractFirstNumAux, hc, if_true] at h
      split at h
      · rename_i hle
        cases h
        exact hle
      · cases h
    · simp only [extractFirstNumAux] at h
      rw [if_neg hc] at h
      exact extractAux_le cs v l h

/-- C1: the claim as stated is false — `extract_first_number` refuses a
digit run whose value overflows `usize` (parse returns `Err`), so the name
`"99999999999999999999.mp3"`, which does contain a digit run, does NOT sort
before the digitless name `"!.mp3"`: the comparator falls back to
lexicographic order on the stems and yields `gt`. -/
theorem c1_overflow_counterexample :
    ("99999999999999999999".data.any Char.isDigit = true)
      ∧ ("!".data.any Char.isDigit = false)
      ∧ rustFileStem "99999999999999999999.mp3" = "99999999999999999999"
      ∧ rustFileStem "!.mp3" = "!"
      ∧ fileCmp "99999999999999999999.mp3" "!.mp3" = Ordering.gt := by
  refine ⟨by decide, by decide, by decide, by decide, by decide⟩

/-- C1 (amended): within every directory group built by
`populate_from_input`, files are ordered by the comparator on the
extension-stripped stem — smaller first-digit-run value first, longer digit
run first on a numeric tie (so "007" sorts before "7"), names with a
recognized digit run before names without, lexicographic on the stems
otherwise — where a digit run is recognized only when its value fits in
`usize` (overflowing runs are treated as no digit run); and
"1 - Song.mp3", "2 - Song.mp3", "10 - Song.mp3" order as 1, 2, 10. -/
theorem c1_group_comparator :
    (∀ a b x xl y yl,
        extract_first_number (rustFileStem a) = some (x, xl) →
          extract_first_number (rustFileStem b) = some (y, yl) →
            (x < y → fileCmp a b = .lt)
              ∧ (x = y → yl < xl → fileCmp a b = .lt)
              ∧ (x = y → xl = yl → fileCmp a b = .eq))
      ∧ (∀ a b, (extract_first_number (rustFileStem a)).isSome = true →
          extract_first_number (rustFileStem b) = none → fileCmp a b = .lt)
      ∧ (∀ a b, extract_first_number (rustFileStem a) = none →
          extract_first_number (rustFileStem b) = none →
            fileCmp a b = lexCmp (rustFileStem a).data (rustFileStem b).data)
      ∧ (∀ s v l, extract_first_number s = some (v, l) → v ≤ usizeMax)
      ∧ populate_from_input
            [⟨"album", "2 - Song.mp3"⟩, ⟨"album", "10 - Song.mp3"⟩,
              ⟨"album", "1 - Song.mp3"⟩]
          = [("album", ["1 - Song.mp3", "2 - Song.mp3", "10 - Song.mp3"])] := by
  refine ⟨?_, ?_, ?_, ?_, by decide⟩
  · intro a b x xl y yl ha hb
    refine ⟨fun hxy => ?_, fun hxy hl => ?_, fun hxy hl => ?_⟩ <;>
      simp only [fileCmp, ha, hb, numKeyCmp]
    · simp [nCmp_eq_lt.mpr hxy]
    · simp [nCmp_eq_eq.mpr hxy, nCmp_eq_lt.mpr hl]
    · simp [nCmp_eq_eq.mpr hxy, nCmp_eq_eq.mpr hl.symm]
  · intro a b ha hb
    obtain ⟨pa, hpa⟩ := Option.isSome_iff_exists.mp ha
    simp [fileCmp, hpa, hb]
  · intro a b ha hb
    simp [fileCmp, ha, hb]
  · exact fun s v l h => extractAux_le s.data v l h

/-- C1 witness: the amended comparator clauses applied at concrete names
("007" before "7" on a numeric tie, "2" before "10" numerically). -/
theorem c1_group_comparator_witness :
    fileCmp "007.mp3" "7.mp3" = .lt ∧ fileCmp "2 - Song.mp3" "10 - Song.mp3" = .lt := by
  have h := c1_group_comparator
  exact ⟨(h.1 "007.mp3" "7.mp3" 7 3 7 1 (by decide) (by decide)).2.1 rfl (by decide),
    (h.1 "2 - Song.mp3" "10 - Song.mp3" 2 1 10 2 (by decide) (by decide)).1 (by decide)⟩

/-- C2: the claim as stated is false — the comparator is not strict on
distinct paths. "1 - a.mp3" and "1 - b.mp3" are distinct but compare equal
(same first digit run value 1 and length 1), so the stable sort leaves them
in traversal order and two traversal permutations of the same set of paths
produce different sequences. -/
theorem c2_tie_counterexample :
    populate_from_input [⟨"d", "1 - a.mp3"⟩, ⟨"d", "1 - b.mp3"⟩]
        = [("d", ["1 - a.mp3", "1 - b.mp3"])]
      ∧ populate_from_input [⟨"d", "1 - b.mp3"⟩, ⟨"d", "1 - a.mp3"⟩]
        = [("d", ["1 - b.mp3", "1 - a.mp3"])]
      ∧ ("1 - a.mp3" : String) ≠ "1 - b.mp3"
      ∧ fileCmp "1 - a.mp3" "1 - b.mp3" = Ordering.eq := by
  refine ⟨by decide, by decide, by decide, by decide⟩

/-- C2 (amended): the comparator is a deterministic total preorder — it is
transitive, comparing in either direction gives opposite results, and every
name ties with itself — but it is not strict on distinct paths: names whose
stems have the same first-digit-run value and length compare equal, and the
stable sort leaves such ties in traversal order, so different traversal
permutations of the same set may produce different sequences. -/
theorem c2_total_preorder :
    (∀ a b c, fileCmp a b = .lt → fileCmp b c = .lt → fileCmp a c = .lt)
      ∧ (∀ a b, fileCmp b a = (fileCmp a b).swap)
      ∧ (∀ a, fileCmp a a = .eq) :=
  ⟨fileCmp_trans, fileCmp_swap, fileCmp_refl⟩

/-- C2 witness: transitivity applied at concrete names. -/
theorem c2_total_preorder_witness : fileCmp "1.mp3" "3.mp3" = .lt :=
  c2_total_preorder.1 "1.mp3" "2.mp3" "3.mp3" (by decide) (by decide)

/-- C10: an empty stdout together with an empty stderr is treated as the
user-cancelled case: `str::lines` yields no lines, so the `Listening:`
check is vacuously true, and `run_covit` returns `None` for every fallback
executor — the filename fallback is never consulted. -/
theorem c10_empty_output_cancel :
    rustLines "" = []
      ∧ ∀ (qe : List String → Option ProcOutput) (pj : String → Option Json)
          (addr ra ss cc : String) (stem : Option String),
          run_covit (some ⟨"", ""⟩) qe pj addr ra ss cc stem = none :=
  ⟨rfl, fun _ _ _ _ _ _ _ => rfl⟩

/-- A spec-level `Listening: <number>` line: the literal tag followed by a
non-empty all-digit payload. -/
def listeningNumLine (l : List Char) : Bool :=
  match dropLead? "Listening: ".data l with
  | some rest => !rest.isEmpty && rest.all Char.isDigit
  | none => false

theorem dropLead_append_isSome : ∀ (p q l : List Char),
    (dropLead? (p ++ q) l).isSome = true → (dropLead? p l).isSome = true
  | [], _, _, _ => rfl
  | _ :: _, q, [], h => by simp [dropLead?] at h
  | p :: ps, q, c :: cs, h => by
    simp only [List.cons_append, dropLead?] at h ⊢
    by_cases hpc : p = c
    · rw [if_pos hpc] at h ⊢
      exact dropLead_append_isSome ps q cs h
    · rw [if_neg hpc] at h
      simp at h

/-- C4: whenever every captured stdout line of the first invocation matches
the `Listening: <number>` pattern and the captured stderr is empty,
`run_covit` returns `None` — the normal user-cancelled outcome — and the
result does not depend on the fallback executor (no fallback query is
attempted). The code's own test is weaker (`starts_with("Listening:")` and
blank stderr), so the claimed condition is sufficient. -/
theorem c4_listening_cancel :
    ∀ (out : ProcOutput) (qe : List String → Option ProcOutput)
      (pj : String → Option Json) (addr ra ss cc : String) (stem : Option String),
      (∀ l ∈ rustLines out.stdout, listeningNumLine l = true) →
      out.stderr = "" →
      run_covit (some out) qe pj addr ra ss cc stem = none := by
  intro out qe pj addr ra ss cc stem hall herr
  have hcond : listeningCond out = true := by
    unfold listeningCond
    refine (Bool.and_eq_true _ _).mpr ⟨?_, ?_⟩
    · rw [List.all_eq_true]
      intro l hl
      have hnum := hall l hl
      unfold listeningNumLine at hnum
      cases hdl : dropLead? "Listening: ".data l with
      | none => rw [hdl] at hnum; simp at hnum
      | some rest =>
        have happ : "Listening: ".data = "Listening:".data ++ [' '] := by decide
        exact dropLead_append_isSome "Listening:".data [' '] l (by rw [← happ, hdl]; rfl)
    · rw [herr]; rfl
  simp [run_covit, hcond]

/-- C4 witness: the spec's own example, stdout `"Listening: 51243\n"` with
empty stderr, cancels without a result. -/
theorem c4_listening_cancel_witness :
    run_covit (some ⟨"Listening: 51243\n", ""⟩) (fun _ => none) (fun _ => none)
        "addr" "agent" "srcs" "gb" (some "x") = none :=
  c4_listening_cancel ⟨"Listening: 51243\n", ""⟩ (fun _ => none) (fun _ => none)
    "addr" "agent" "srcs" "gb" (some "x") (by decide) rfl

/-- C5: the filename fallback. `parse_file_name` splits at the first
delimiter found while scanning the fixed ordered list, trimming both sides,
and with no delimiter returns the whole trimmed name as the title with no
artist; when the first invocation is not the cancellation case and parses
to nothing, `run_covit` re-invokes the resolver in query mode exactly when
the derived title is non-empty — building the query argument list with the
artist argument present exactly when the derived artist is non-empty — and
returns that second output parsed, with no further fallback; with an empty
derived title it returns `None` for every fallback executor (no second
invocation). -/
theorem c5_filename_fallback :
    (∀ s i d, firstDelim delimiterList s.data = some (i, d) →
        parse_file_name s
          = (some (String.mk (trimChars (s.data.take i))),
              some (String.mk (trimChars (s.data.drop (i + d))))))
      ∧ (∀ s, firstDelim delimiterList s.data = none →
          parse_file_name s = (none, some (String.mk (trimChars s.data))))
      ∧ (∀ out qe pj addr ra ss cc stem t a,
          listeningCond out = false →
            parse_covit_output pj out.stdout = none →
              parse_file_name stem = (a, some t) →
                t ≠ "" →
                  run_covit (some out) qe pj addr ra ss cc (some stem)
                    = match qe (covitQueryArgs addr t a ra ss cc) with
                      | some out2 => parse_covit_output pj out2.stdout
                      | none => none)
      ∧ (∀ out qe pj addr ra ss cc stem a,
          listeningCond out = false →
            parse_covit_output pj out.stdout = none →
              parse_file_name stem = (a, some "") →
                run_covit (some out) qe pj addr ra ss cc (some stem) = none)
      ∧ (∀ addr t a ra ss cc, a ≠ "" →
          covitQueryArgs addr t (some a) ra ss cc
            = ["--address", addr, "--query-album", t, "--query-artist", a,
                "--remote-agent", ra, "--query-sources", ss, "--query-country", cc])
      ∧ (∀ addr t ra ss cc,
          covitQueryArgs addr t none ra ss cc
              = ["--address", addr, "--query-album", t,
                  "--remote-agent", ra, "--query-sources", ss, "--query-country", cc]
            ∧ covitQueryArgs addr t (some "") ra ss cc
              = ["--address", addr, "--query-album", t,
                  "--remote-agent", ra, "--query-sources", ss, "--query-country", cc]) := by
  refine ⟨?_, ?_, ?_, ?_, ?_, ?_⟩
  · intro s i d h
    simp [parse_file_name, h]
  · intro s h
    simp [parse_file_name, h]
  · intro out qe pj addr ra ss cc stem t a hcond hparse hpf ht
    simp [run_covit, hcond, hparse, hpf, ht]
  · intro out qe pj addr ra ss cc stem a hcond hparse hpf
    simp [run_covit, hcond, hparse, hpf]
  · intro addr t a ra ss cc ha
    simp [covitQueryArgs, ha]
  · intro addr t ra ss cc
    simp [covitQueryArgs]

/-- C5 witness: a non-cancelled first invocation with no parsed result and
the stem "Artist - Title" splits into artist "Artist", title "Title"; with
a fallback executor that returns nothing the overall result is `None`. -/
theorem c5_filename_fallback_witness :
    parse_file_name "Artist - Title" = (some "Artist", some "Title")
      ∧ run_covit (some ⟨"junk\n", ""⟩) (fun _ => none) (fun _ => none)
          "addr" "agent" "srcs" "gb" (some "Artist - Title") = none := by
  constructor
  · exact (c5_filename_fallback.1 "Artist - Title" 6 3 (by decide)).trans (by decide)
  · exact (c5_filename_fallback.2.2.1 ⟨"junk\n", ""⟩ (fun _ => none) (fun _ => none)
      "addr" "agent" "srcs" "gb" "Artist - Title" "Title" (some "Artist")
      (by decide) (by decide) (by decide) (by decide)).trans rfl

/-- C3: the claim as stated is false — nothing in `run` checks the cover
URL for emptiness. The stdout line `Picked: ` followed by an empty JSON
object parses successfully, `bigCoverUrl` defaults to the empty string,
and the per-file dispatch still proceeds to the download step with that
empty URL instead of skipping. -/
theorem c3_empty_url_counterexample :
    parse_covit_output (fun s => if s = "\x7b\x7d" then some (Json.obj []) else none)
        "Picked: \x7b\x7d"
      = some (extractPicked (Json.obj []))
      ∧ (extractPicked (Json.obj [])).big_cover_url = ""
      ∧ perFileAction (some (extractPicked (Json.obj []))) = JobAction.download ""
      ∧ perFileAction (some (extractPicked (Json.obj []))) ≠ JobAction.skip := by
  refine ⟨by decide, by decide, by decide, by decide⟩

/-- C3 (amended): a result returned by `run_covit` is always acted upon,
regardless of its cover URL: the dispatch in `run` skips exactly the `None`
outcomes and downloads `big_cover_url` for every `Some`, and an absent
`bigCoverUrl` field defaults to the empty string during parsing (so the
download step is then attempted with an empty URL and fails inside the
owning job rather than being skipped up front). -/
theorem c3_result_always_acted :
    (∀ o : Option Picked, perFileAction o = JobAction.skip ↔ o = none)
      ∧ (∀ p, perFileAction (some p) = JobAction.download p.big_cover_url)
      ∧ (∀ v : Json, v.get? "bigCoverUrl" = none → (extractPicked v).big_cover_url = "") := by
  refine ⟨?_, fun p => rfl, ?_⟩
  · intro o
    cases o <;> simp [perFileAction]
  · intro v hv
    simp [extractPicked, hv]

/-- C3 witness: the default applied at a concrete record with no
`bigCoverUrl` field. -/
theorem c3_result_always_acted_witness :
    (extractPicked (Json.obj [("releaseInfo", Json.null)])).big_cover_url = "" :=
  c3_result_always_acted.2.2 (Json.obj [("releaseInfo", Json.null)]) rfl

theorem stripAll_eq_nil : ∀ ps : List Picture, stripAll ps = []
  | [] => rfl
  | _ :: rest => stripAll_eq_nil rest

theorem idxOfTag_lt_length : ∀ (tt : TagT) (l : List Tag) (i : Nat),
    idxOfTag tt l = some i → i < l.length
  | _, [], _, h => by cases h
  | tt, t :: rest, i, h => by
    unfold idxOfTag at h
    by_cases ht : t.tagType = tt
    · rw [if_pos ht] at h
      cases h
      simp
    · rw [if_neg ht] at h
      obtain ⟨j, hj, rfl⟩ := Option.map_eq_some'.mp h
      have := idxOfTag_lt_length tt rest j hj
      simp only [List.length_cons]
      omega

theorem set_getD_self (l : List α) (i : Nat) (x d : α) (h : i < l.length) :
    (l.set i x).getD i d = x := by
  rw [List.getD_eq_getElem?_getD, List.getElem?_set_eq_of_lt x h]
  rfl

theorem set_getElem?_ne (l : List α) (i j : Nat) (x : α) (h : j ≠ i) :
    (l.set i x)[j]? = l[j]? :=
  List.getElem?_set_ne (fun hij => h hij.symm)

/-- C6: the claim as stated is false — `remove_embedded_art_from_file` only
visits the tag of the file's primary type. A file whose only pictures live
in a non-primary tag (here an APE tag on a file whose primary type is
ID3v2) is returned unchanged and still contains an embedded picture after a
successful strip. -/
theorem c6_nonprimary_counterexample :
    remove_embedded_art_from_file
        { primaryType := TagT.id3v2,
          tags := [{ tagType := TagT.ape,
                     pictures := [{ picType := PicT.coverFront, mime := MimeT.jpeg,
                                    data := [1, 2] }] }] }
      = { primaryType := TagT.id3v2,
          tags := [{ tagType := TagT.ape,
                     pictures := [{ picType := PicT.coverFront, mime := MimeT.jpeg,
                                    data := [1, 2] }] }] }
      ∧ totalPictures
          { primaryType := TagT.id3v2,
            tags := [{ tagType := TagT.ape,
                       pictures := [{ picType := PicT.coverFront, mime := MimeT.jpeg,
                                      data := [1, 2] }] }] }
        = 1 := by
  refine ⟨by decide, by decide⟩

/-- C6 (amended): strip removes every embedded picture — of every picture
type, not just the front cover — from the file's primary tag and saves; a
file with no tag of its primary type is left completely unchanged, and
pictures held by non-primary tags are not touched. -/
theorem c6_strip_primary_tag :
    (∀ ps, stripAll ps = [])
      ∧ (∀ f i, primaryIdx f = some i →
          ((remove_embedded_art_from_file f).tags.getD i dTag).pictures = []
            ∧ ∀ j, j ≠ i →
                (remove_embedded_art_from_file f).tags[j]? = f.tags[j]?)
      ∧ (∀ f, primaryIdx f = none → remove_embedded_art_from_file f = f) := by
  refine ⟨stripAll_eq_nil, ?_, ?_⟩
  · intro f i h
    have hlt : i < f.tags.length := idxOfTag_lt_length _ _ _ h
    constructor
    · simp only [remove_embedded_art_from_file, h]
      rw [set_getD_self _ _ _ _ hlt]
      exact stripAll_eq_nil _
    · intro j hj
      simp only [remove_embedded_art_from_file, h]
      exact set_getElem?_ne _ _ _ _ hj
  · intro f h
    simp [remove_embedded_art_from_file, h]

/-- C6 witness: stripping a file whose primary ID3v2 tag carries two
pictures (front cover and another type) empties that tag. -/
theorem c6_strip_primary_tag_witness :
    ((remove_embedded_art_from_file
          { primaryType := TagT.id3v2,
            tags := [{ tagType := TagT.id3v2,
                       pictures := [{ picType := PicT.coverFront, mime := MimeT.jpeg,
                                      data := [1] },
                                    { picType := PicT.other, mime := MimeT.png,
                                      data := [2] }] }] }).tags.getD 0 dTag).pictures
      = [] :=
  (c6_strip_primary_tag.2.1
      { primaryType := TagT.id3v2,
        tags := [{ tagType := TagT.id3v2,
                   pictures := [{ picType := PicT.coverFront, mime := MimeT.jpeg,
                                  data := [1] },
                                { picType := PicT.other, mime := MimeT.png,
                                  data := [2] }] }] }
      0 (by decide)).1

/-- C7: the claim as stated is false — in album-folder mode a download
error is propagated with `?` out of `run`, aborting the whole run: with two
folders where only the first suffers a network failure, the run returns the
error and the second folder (which alone would complete) is never counted. -/
theorem c7_album_abort_counterexample :
    albumRun
        [{ artExists := false, picked := some (extractPicked (Json.obj [])),
           downloadResult := .error "download failed", processResult := .ok [],
           writeResult := .ok () },
         { artExists := false, picked := some (extractPicked (Json.obj [])),
           downloadResult := .ok [1], processResult := .ok [1], writeResult := .ok () }]
      = .error "download failed"
      ∧ albumRun
          [{ artExists := false, picked := some (extractPicked (Json.obj [])),
             downloadResult := .ok [1], processResult := .ok [1], writeResult := .ok () }]
        = .ok 1 :=
  ⟨rfl, rfl⟩

/-- C7 (amended): in per-file mode a network error aborts only the owning
job — the run itself always succeeds, and a job whose thread panics on the
download simply drops out of the completion count without affecting its
siblings — while in album-folder mode a download error aborts the entire
run, not just the owning folder. -/
theorem c7_error_isolation :
    (∀ jobs, (perFileRun jobs).isOk = true)
      ∧ (∀ j jobs m, j.picked.isSome = true → fileThread j = .panicked m →
          perFileRun (j :: jobs) = perFileRun jobs)
      ∧ (∀ acc e f rest, f.artExists = false → f.picked.isSome = true →
          f.downloadResult = .error e →
            albumRunFrom acc (f :: rest) = .error e) := by
  refine ⟨fun jobs => rfl, ?_, ?_⟩
  · intro j jobs m hp ht
    simp [perFileRun, List.filter_cons, hp, List.count_cons, ht]
  · intro acc e f rest hart hp hd
    obtain ⟨p, hp'⟩ := Option.isSome_iff_exists.mp hp
    simp [albumRunFrom, albumStep, hart, hp', hd]

/-- C7 witness: a two-job per-file run where the first job's download fails
counts exactly the surviving job. -/
theorem c7_error_isolation_witness :
    perFileRun
        [{ picked := some (extractPicked (Json.obj [])),
           downloadResult := .error "net", embedResult := .ok () },
         { picked := some (extractPicked (Json.obj [])),
           downloadResult := .ok [1], embedResult := .ok () }]
      = perFileRun
          [{ picked := some (extractPicked (Json.obj [])),
             downloadResult := .ok [1], embedResult := .ok () }] :=
  c7_error_isolation.2.1
    { picked := some (extractPicked (Json.obj [])),
      downloadResult := .error "net", embedResult := .ok () }
    [{ picked := some (extractPicked (Json.obj [])),
       downloadResult := .ok [1], embedResult := .ok () }]
    "Failed to Download Image" rfl rfl

theorem ok_pair_pictureOf {x b' : List Nat} {p' : Picture}
    (h : (Except.ok (x, pictureOf x) : Except String (List Nat × Picture)) = .ok (b', p')) :
    p' = pictureOf b' := by
  injection h with hpair
  injection hpair with h1 h2
  rw [← h2, ← h1]

theorem convert_ok_shape {Img : Type} (codec : Codec Img) (b : List Nat) (q? : Option Nat)
    (b1 : List Nat) (p1 : Picture) (h : convert_png_to_jpeg codec b q? = .ok (b1, p1)) :
    p1 = pictureOf b1 := by
  unfold convert_png_to_jpeg at h
  cases hd : codec.decode b with
  | error e => simp only [hd] at h; cases h
  | ok img =>
    simp only [hd] at h
    cases he : codec.encodeJpegDefault img with
    | error e => simp only [he] at h; cases h
    | ok jb =>
      simp only [he] at h
      cases q? with
      | none => exact ok_pair_pictureOf h
      | some qq =>
        cases ho : optimise_jpeg codec jb qq with
        | error e => simp only [ho] at h; cases h
        | ok jb2 =>
          simp only [ho] at h
          exact ok_pair_pictureOf h

theorem process_ok_pictureOf {Img : Type} (codec : Codec Img) (b : List Nat) (cv : Bool)
    (q : Option Nat) (po : Bool) (b' : List Nat) (p' : Picture)
    (h : process_cover_image codec b cv q po = .ok (b', p')) : p' = pictureOf b' := by
  unfold process_cover_image at h
  cases hm : detectMime b with
  | png =>
    simp only [hm] at h
    cases cv with
    | true =>
      cases hc : convert_png_to_jpeg codec b q with
      | error e => simp only [hc] at h; cases h
      | ok pr =>
        obtain ⟨b1, p1⟩ := pr
        have hp1 : p1 = pictureOf b1 := convert_ok_shape codec b q b1 p1 hc
        simp only [hc] at h
        by_cases hpo : p1.mime = MimeT.png ∧ po = true
        · rw [if_pos hpo] at h
          cases hopt : codec.pngOptimize b1 with
          | error e => simp only [hopt] at h; cases h
          | ok b2 =>
            simp only [hopt] at h
            exact ok_pair_pictureOf h
        · rw [if_neg hpo] at h
          rw [hp1] at h
          exact ok_pair_pictureOf h
    | false =>
      simp only at h
      by_cases hpo : (pictureOf b).mime = MimeT.png ∧ po = true
      · rw [if_pos hpo] at h
        cases hopt : codec.pngOptimize b with
        | error e => simp only [hopt] at h; cases h
        | ok b2 =>
          simp only [hopt] at h
          exact ok_pair_pictureOf h
      · rw [if_neg hpo] at h
        exact ok_pair_pictureOf h
  | jpeg =>
    simp only [hm] at h
    cases q with
    | some qq =>
      cases ho : optimise_jpeg codec b qq with
      | error e => simp only [ho] at h; cases h
      | ok b2 =>
        simp only [ho] at h
        exact ok_pair_pictureOf h
    | none => exact ok_pair_pictureOf h
  | other =>
    simp only [hm] at h
    exact ok_pair_pictureOf h

theorem selectTag_lt (f : TaggedFile) : (selectTag f).2 < (selectTag f).1.tags.length := by
  unfold selectTag
  cases hp : primaryIdx f with
  | some i =>
    simp only [hp]
    exact idxOfTag_lt_length _ _ _ hp
  | none =>
    simp only [hp]
    cases ht : f.tags with
    | nil => simp only [ht]; simp
    | cons a t => simp only [ht]; simp

theorem selectTag_cases (f : TaggedFile) :
    (primaryIdx f = some (selectTag f).2 ∧ (selectTag f).1 = f)
      ∨ (primaryIdx f = none ∧ f.tags ≠ [] ∧ selectTag f = (f, 0))
      ∨ (f.tags = []
          ∧ selectTag f
              = ({ f with tags := [{ tagType := f.primaryType, pictures := [] }] }, 0)) := by
  unfold selectTag
  cases hp : primaryIdx f with
  | some i => exact Or.inl ⟨rfl, rfl⟩
  | none =>
    cases ht : f.tags with
    | nil => exact Or.inr (Or.inr ⟨rfl, rfl⟩)
    | cons a t => exact Or.inr (Or.inl ⟨rfl, List.cons_ne_nil a t, rfl⟩)

theorem filter_cover_of_filter_not (ps : List Picture) :
    (ps.filter (fun p => p.picType != PicT.coverFront)).filter
        (fun p => p.picType == PicT.coverFront) = [] := by
  induction ps with
  | nil => rfl
  | cons p ps ih =>
    by_cases hp : p.picType = PicT.coverFront <;>
      simp [List.filter_cons, hp, ih]

/-- C8: `embed_cover_image` selects the target tag by the three-case rule
(primary tag, else first tag, else a freshly created tag of the primary
type), removes every existing front-cover picture before pushing the new
one — so on success the written tag carries exactly one front-cover
picture, whose bytes and MIME type are those of the processed image — all
other tags are untouched, and the save overrides read-only flags. -/
theorem c8_embed_front_cover :
    ∀ (Img : Type) (codec : Codec Img) (f : TaggedFile) (bytes : List Nat)
      (cv : Bool) (q : Option Nat) (po : Bool) (f' : TaggedFile) (w : WriteOptions),
      embed_cover_image codec f bytes cv q po = .ok (f', w) →
        w.respectReadOnly = false
          ∧ (∃ b' p', process_cover_image codec bytes cv q po = .ok (b', p')
              ∧ ((f'.tags.getD (selectTag f).2 dTag).pictures.filter
                    (fun p => p.picType == PicT.coverFront))
                  = [{ p' with picType := PicT.coverFront }]
              ∧ p'.data = b'
              ∧ p'.mime = detectMime b')
          ∧ (∀ j, j ≠ (selectTag f).2 → f'.tags[j]? = (selectTag f).1.tags[j]?)
          ∧ ((primaryIdx f = some (selectTag f).2 ∧ (selectTag f).1 = f)
              ∨ (primaryIdx f = none ∧ f.tags ≠ [] ∧ selectTag f = (f, 0))
              ∨ (f.tags = []
                  ∧ selectTag f
                      = ({ f with tags := [{ tagType := f.primaryType, pictures := [] }] },
                          0))) := by
  intro Img codec f bytes cv q po f' w h
  unfold embed_cover_image at h
  cases hp : process_cover_image codec bytes cv q po with
  | error e => simp only [hp] at h; cases h
  | ok pr =>
    obtain ⟨bb, pic⟩ := pr
    simp only [hp] at h
    unfold attachCover at h
    injection h with hfw
    injection hfw with hf hw
    subst hf
    subst hw
    have hpic : pic = pictureOf bb := process_ok_pictureOf codec bytes cv q po bb pic hp
    refine ⟨rfl, ⟨bb, pic, rfl, ?_, ?_, ?_⟩, ?_, selectTag_cases f⟩
    · rw [set_getD_self _ _ _ _ (selectTag_lt f)]
      simp [List.filter_append, filter_cover_of_filter_not, List.filter_cons]
    · rw [hpic]; exact rfl
    · rw [hpic]; exact rfl
    · intro j hj
      exact set_getElem?_ne _ _ _ _ hj

/-- A concrete codec over a trivial pixel type, used to instantiate the
image-pipeline theorems. -/
def unitCodec : Codec Unit where
  decode := fun _ => .ok ()
  encodeJpegDefault := fun _ => .ok [255, 216, 1]
  encodeJpegQ := fun qq _ => .ok [255, 216, qq]
  pngOptimize := fun bs => .ok bs

/-- C8 witness: embedding JPEG bytes into a file whose single ID3v2 tag is
its primary tag succeeds and the saved write options override read-only. -/
theorem c8_embed_front_cover_witness :
    embed_cover_image unitCodec
        { primaryType := TagT.id3v2, tags := [{ tagType := TagT.id3v2, pictures := [] }] }
        [255, 216] false none false
      = .ok
          ({ primaryType := TagT.id3v2,
             tags := [{ tagType := TagT.id3v2,
                        pictures := [{ picType := PicT.coverFront, mime := MimeT.jpeg,
                                       data := [255, 216] }] }] },
            { respectReadOnly := false })
      ∧ ({ respectReadOnly := false } : WriteOptions).respectReadOnly = false := by
  have h : embed_cover_image unitCodec
      { primaryType := TagT.id3v2, tags := [{ tagType := TagT.id3v2, pictures := [] }] }
      [255, 216] false none false
    = .ok
        ({ primaryType := TagT.id3v2,
           tags := [{ tagType := TagT.id3v2,
                      pictures := [{ picType := PicT.coverFront, mime := MimeT.jpeg,
                                     data := [255, 216] }] }] },
          { respectReadOnly := false }) := rfl
  exact ⟨h,
    (c8_embed_front_cover Unit unitCodec
        { primaryType := TagT.id3v2, tags := [{ tagType := TagT.id3v2, pictures := [] }] }
        [255, 216] false none false _ _ h).1⟩

/-- C9: `process_cover_image` branches on the detected MIME type of the
input bytes. A PNG is converted to JPEG when conversion is enabled (decode
failure propagates as an error, and the converted buffer — no longer
detected as PNG — is returned as is, skipping the PNG pass), else
losslessly recompressed when PNG-optimization is enabled, else passed
through; a JPEG is re-encoded at the configured quality when one is set,
else passed through; any other type passes through unchanged; in every
successful outcome the returned picture is re-derived from the returned
final bytes (its data and MIME type match the buffer), and the PNG→JPEG
conversion applies the configured quality by a further re-encode. -/
theorem c9_process_branches :
    ∀ (Img : Type) (codec : Codec Img) (b : List Nat),
      (∀ cv q po b' p', process_cover_image codec b cv q po = .ok (b', p') →
          p'.data = b' ∧ p'.mime = detectMime b')
        ∧ (∀ cv q po, detectMime b = .other →
            process_cover_image codec b cv q po = .ok (b, pictureOf b))
        ∧ (∀ cv qq po, detectMime b = .jpeg →
            process_cover_image codec b cv (some qq) po
              = match optimise_jpeg codec b qq with
                | .error e => .error e
                | .ok b2 => .ok (b2, pictureOf b2))
        ∧ (∀ cv po, detectMime b = .jpeg →
            process_cover_image codec b cv none po = .ok (b, pictureOf b))
        ∧ (∀ q po e, detectMime b = .png → codec.decode b = .error e →
            process_cover_image codec b true q po = .error e)
        ∧ (∀ q po b1 p1, detectMime b = .png →
            convert_png_to_jpeg codec b q = .ok (b1, p1) → p1.mime ≠ MimeT.png →
              process_cover_image codec b true q po = .ok (b1, p1))
        ∧ (∀ q, detectMime b = .png →
            process_cover_image codec b false q true
              = match codec.pngOptimize b with
                | .error e => .error e
                | .ok b2 => .ok (b2, pictureOf b2))
        ∧ (∀ q, detectMime b = .png →
            process_cover_image codec b false q false = .ok (b, pictureOf b))
        ∧ (∀ img jb qq, codec.decode b = .ok img →
            codec.encodeJpegDefault img = .ok jb →
              convert_png_to_jpeg codec b (some qq)
                = match optimise_jpeg codec jb qq with
                  | .error e => .error e
                  | .ok b2 => .ok (b2, pictureOf b2)) := by
  intro Img codec b
  refine ⟨?_, ?_, ?_, ?_, ?_, ?_, ?_, ?_, ?_⟩
  · intro cv q po b' p' h
    have hpic := process_ok_pictureOf codec b cv q po b' p' h
    subst hpic
    exact ⟨rfl, rfl⟩
  · intro cv q po hm
    cases cv <;> simp [process_cover_image, hm]
  · intro cv qq po hm
    simp [process_cover_image, hm]
  · intro cv po hm
    simp [process_cover_image, hm]
  · intro q po e hm hd
    have hc : convert_png_to_jpeg codec b q = .error e := by
      unfold convert_png_to_jpeg
      simp only [hd]
    simp [process_cover_image, hm, hc]
  · intro q po b1 p1 hm hc hne
    simp only [process_cover_image, hm, hc]
    rw [if_neg (fun hand => hne hand.1)]
  · intro q hm
    simp [process_cover_image, pictureOf, hm]
  · intro q hm
    simp [process_cover_image, pictureOf, hm]
  · intro img jb qq hd he
    unfold convert_png_to_jpeg
    simp only [hd, he]

/-- C9 witness: JPEG bytes with quality 80 are re-encoded at that quality
and the returned picture is re-derived from the re-encoded buffer. -/
theorem c9_process_branches_witness :
    process_cover_image unitCodec [255, 216] false (some 80) false
      = .ok ([255, 216, 80], pictureOf [255, 216, 80]) :=
  ((c9_process_branches Unit unitCodec [255, 216]).2.2.1 false 80 false rfl).trans rfl
